import Mathlib

/-!
Verification development for `generate_protocol_metrics.py`, the metrics
dashboard generator of the `pdiomede/metrics` repository.

The aggregation pipeline of the script is shallowly embedded here:
* remote HTTP interactions are modelled by a `Transport` outcome type
  (2xx payload / non-2xx status / network-level exception);
* pagination loops (`while True:` in the source) are modelled with an
  explicit fuel parameter; theorems show the result stabilises for all
  sufficiently large fuel, which is the embedding of termination;
* Python big integers are `Nat`/`Int`; Python `//` on possibly negative
  values is `Int.fdiv` (floor division), and `int(x / y)` on floats is
  modelled as truncated division `Int.tdiv` (exact for all magnitudes the
  script can encounter, far below 2^53);
* fallible code returns `Option`/`Except`.
-/

/-- Outcome of one `requests.post` call: a 2xx response with parsed payload,
a non-2xx status code, or a network-level exception raised by the library. -/
inductive Transport (α : Type) where
  | ok (payload : α)
  | httpError
  | exn
deriving DecidableEq

/-! ## Network/indexer aggregator (`fetch_network_subgraph_counts`) -/

/-- `manifest` sub-object of a subgraph record: carries the optional
`network` field. -/
structure Manifest where
  network : Option String
deriving DecidableEq

/-- One entry of `indexerAllocations`: the allocation's indexer id when the
`indexer` object is present and has an `id` key. -/
structure Allocation where
  indexer : Option String
deriving DecidableEq

/-- One record returned by the paginated `subgraphs` query, flattened to the
fields the aggregation loop reads: `currentVersion.subgraphDeployment.manifest`
and `currentVersion.subgraphDeployment.indexerAllocations`. -/
structure SubgraphRecord where
  manifest : Option Manifest
  indexerAllocations : List Allocation
deriving DecidableEq

/-- Result row of the aggregator (the `NetworkIndexerData` dataclass of the
source). -/
structure NetworkIndexerData where
  network_name : String
  subgraph_count : Nat
  unique_indexer_count : Nat
deriving DecidableEq

/-- The network identifier the loop extracts from a record:
`deployment.get("manifest")` followed by `manifest.get("network")`, with the
Python falsy checks `if not manifest: continue` / `if not network: continue`
(an empty string is falsy and is skipped as well). -/
def recNetwork (r : SubgraphRecord) : Option String :=
  match r.manifest with
  | none => none
  | some m =>
    match m.network with
    | none => none
    | some n => if n = "" then none else some n

/-- `counts[network] = counts.get(network, 0) + 1` on an insertion-ordered
dictionary, modelled as an association list. -/
def bumpCount : List (String × Nat) → String → List (String × Nat)
  | [], net => [(net, 1)]
  | (k, v) :: rest, net =>
    if k = net then (k, v + 1) :: rest else (k, v) :: bumpCount rest net

/-- `s.add(i)` on a Python set modelled as a duplicate-free list. -/
def addToSet (s : List String) (i : String) : List String :=
  if i ∈ s then s else i :: s

/-- The inner `for alloc in allocations:` loop: add every present indexer id
to the network's set. -/
def addAllocs (s : List String) (allocs : List Allocation) : List String :=
  allocs.foldl
    (fun acc a =>
      match a.indexer with
      | some i => addToSet acc i
      | none => acc) s

/-- Update `indexers_by_network[network]`: create the set if the key is
missing, then add every present indexer id of the record's allocations. -/
def updIndexers : List (String × List String) → String → List Allocation →
    List (String × List String)
  | [], net, allocs => [(net, addAllocs [] allocs)]
  | (k, v) :: rest, net, allocs =>
    if k = net then (k, addAllocs v allocs) :: rest
    else (k, v) :: updIndexers rest net allocs

/-- The two dictionaries the aggregation loop maintains. -/
structure AggState where
  counts : List (String × Nat)
  indexers : List (String × List String)
deriving DecidableEq

/-- Body of `for item in batch:`: skip the record unless a (truthy) network
is present, then bump the network's count and record its allocations'
indexer ids. -/
def processRecord (st : AggState) (r : SubgraphRecord) : AggState :=
  match recNetwork r with
  | none => st
  | some net => ⟨bumpCount st.counts net, updIndexers st.indexers net r.indexerAllocations⟩

/-- Dictionary lookup on the counts association list. -/
def lookupCount : List (String × Nat) → String → Option Nat
  | [], _ => none
  | (k, v) :: rest, net => if k = net then some v else lookupCount rest net

/-- `indexers_by_network.get(network, set())` on the association list. -/
def lookupSet : List (String × List String) → String → List String
  | [], _ => []
  | (k, v) :: rest, net => if k = net then v else lookupSet rest net

/-- The final `for network, subgraph_count in counts.items():` loop producing
one `NetworkIndexerData` per key, in insertion order. -/
def finalizeAgg (st : AggState) : List NetworkIndexerData :=
  st.counts.map fun p =>
    ⟨p.1, p.2, (lookupSet st.indexers p.1).length⟩

/-- Aggregation of a list of retrieved subgraph records (the body of
`fetch_network_subgraph_counts` applied to the concatenation of all fetched
pages). -/
def aggregateRecords (records : List SubgraphRecord) : List NetworkIndexerData :=
  finalizeAgg (records.foldl processRecord ⟨[], []⟩)

/-- Grand total over the full mapping: `sum(entry.subgraph_count for entry
in data)` in `generate_html_dashboard`. -/
def grand_total (data : List NetworkIndexerData) : Nat :=
  (data.map (·.subgraph_count)).sum

/-- Specification-side count: the number of records whose extracted network
identifier is `net`. -/
def netCount (records : List SubgraphRecord) (net : String) : Nat :=
  records.countP fun r => decide (recNetwork r = some net)

/-- Specification-side indexer ids: all present indexer ids of the
allocation lists of the records attributed to `net`. -/
def netIndexerIds (records : List SubgraphRecord) (net : String) : List String :=
  (records.filter fun r => decide (recNetwork r = some net)).flatMap
    fun r => r.indexerAllocations.filterMap (·.indexer)

/-- The input of the specification scenario: two `mainnet` records indexed
by `A`, one `base` record indexed by `B`. -/
def scenarioRecords : List SubgraphRecord :=
  [⟨some ⟨some "mainnet"⟩, [⟨some "A"⟩]⟩,
   ⟨some ⟨some "mainnet"⟩, [⟨some "A"⟩]⟩,
   ⟨some ⟨some "base"⟩, [⟨some "B"⟩]⟩]

/-! ### Lemmas about the aggregation dictionaries -/

theorem lookupCount_bumpCount (l : List (String × Nat)) (n net : String) :
    lookupCount (bumpCount l n) net =
      if net = n then some ((lookupCount l n).getD 0 + 1) else lookupCount l net := by
  induction l with
  | nil =>
    by_cases h : net = n
    · subst h; simp [bumpCount, lookupCount]
    · simp [bumpCount, lookupCount, if_neg h, if_neg (Ne.symm h)]
  | cons q rest ih =>
    obtain ⟨k, v⟩ := q
    by_cases hk : k = n
    · subst hk
      by_cases h : net = k
      · subst h; simp [bumpCount, lookupCount]
      · simp [bumpCount, lookupCount, if_neg h, if_neg (Ne.symm h)]
    · by_cases h : k = net
      · have hn : ¬ net = n := fun hh => hk (h.trans hh)
        simp [bumpCount, lookupCount, h, hn, hk]
      · simp [bumpCount, lookupCount, if_neg hk, if_neg h, ih]

theorem lookupSet_updIndexers (l : List (String × List String)) (n net : String)
    (allocs : List Allocation) :
    lookupSet (updIndexers l n allocs) net =
      if net = n then addAllocs (lookupSet l n) allocs else lookupSet l net := by
  induction l with
  | nil =>
    by_cases h : net = n
    · subst h; simp [updIndexers, lookupSet]
    · simp [updIndexers, lookupSet, if_neg h, if_neg (Ne.symm h)]
  | cons q rest ih =>
    obtain ⟨k, v⟩ := q
    by_cases hk : k = n
    · subst hk
      by_cases h : net = k
      · subst h; simp [updIndexers, lookupSet]
      · simp [updIndexers, lookupSet, if_neg h, if_neg (Ne.symm h)]
    · by_cases h : k = net
      · have hn : ¬ net = n := fun hh => hk (h.trans hh)
        simp [updIndexers, lookupSet, h, hn, hk]
      · simp [updIndexers, lookupSet, if_neg hk, if_neg h, ih]

theorem mem_keys_bumpCount (l : List (String × Nat)) (n k : String) :
    k ∈ (bumpCount l n).map Prod.fst ↔ k ∈ l.map Prod.fst ∨ k = n := by
  induction l with
  | nil => simp [bumpCount]
  | cons q rest ih =>
    obtain ⟨k', v⟩ := q
    by_cases hk : k' = n
    · subst hk
      simp [bumpCount]
      tauto
    · simp [bumpCount, if_neg hk, ih]
      tauto

theorem nodup_keys_bumpCount (l : List (String × Nat)) (n : String)
    (h : (l.map Prod.fst).Nodup) : ((bumpCount l n).map Prod.fst).Nodup := by
  induction l with
  | nil => simp [bumpCount]
  | cons q rest ih =>
    obtain ⟨k, v⟩ := q
    simp only [List.map_cons, List.nodup_cons] at h
    by_cases hk : k = n
    · subst hk
      simpa [bumpCount] using h
    · simp only [bumpCount, if_neg hk, List.map_cons, List.nodup_cons]
      refine ⟨?_, ih h.2⟩
      intro hmem
      rcases (mem_keys_bumpCount rest n k).1 hmem with hm | hm
      · exact h.1 hm
      · exact hk hm

theorem lookupCount_eq_some_mem {l : List (String × Nat)} {net : String} {v : Nat}
    (h : lookupCount l net = some v) : (net, v) ∈ l := by
  induction l with
  | nil => simp [lookupCount] at h
  | cons q rest ih =>
    obtain ⟨k, w⟩ := q
    by_cases hk : k = net
    · subst hk
      simp [lookupCount] at h
      subst h
      exact List.mem_cons_self _ _
    · simp only [lookupCount, if_neg hk] at h
      exact List.mem_cons_of_mem _ (ih h)

theorem lookupCount_of_mem {l : List (String × Nat)} {p : String × Nat}
    (hnd : (l.map Prod.fst).Nodup) (hp : p ∈ l) : lookupCount l p.1 = some p.2 := by
  induction l with
  | nil => simp at hp
  | cons q rest ih =>
    simp only [List.map_cons, List.nodup_cons] at hnd
    rcases List.mem_cons.1 hp with h | h
    · subst h
      simp [lookupCount]
    · have hk : q.1 ≠ p.1 := by
        intro he
        exact hnd.1 (he ▸ List.mem_map_of_mem Prod.fst h)
      obtain ⟨k, w⟩ := q
      simp only [lookupCount, if_neg hk]
      exact ih hnd.2 h

/-! ### Fold invariants of the aggregation loop -/

theorem counts_foldl (records : List SubgraphRecord) (st : AggState) (net : String) :
    (lookupCount ((records.foldl processRecord st).counts) net).getD 0 =
      (lookupCount st.counts net).getD 0 + netCount records net := by
  induction records generalizing st with
  | nil => simp [netCount]
  | cons r rs ih =>
    simp only [List.foldl_cons]
    rw [ih]
    have hc : netCount (r :: rs) net =
        netCount rs net + if recNetwork r = some net then 1 else 0 := by
      simp [netCount, List.countP_cons]
    rw [hc]
    cases hr : recNetwork r with
    | none =>
      simp [processRecord, hr]
    | some m =>
      simp only [processRecord, hr]
      by_cases hm : net = m
      · subst hm
        simp [lookupCount_bumpCount]
        omega
      · have : ¬ (some m = some net) := by
          intro hh; exact hm (Option.some.injEq _ _ ▸ hh).symm
        simp [lookupCount_bumpCount, if_neg hm, this]

theorem counts_isSome_foldl (records : List SubgraphRecord) (st : AggState) (net : String) :
    (lookupCount ((records.foldl processRecord st).counts) net).isSome ↔
      (lookupCount st.counts net).isSome ∨ 0 < netCount records net := by
  induction records generalizing st with
  | nil => simp [netCount]
  | cons r rs ih =>
    simp only [List.foldl_cons]
    rw [ih]
    have hc : netCount (r :: rs) net =
        netCount rs net + if recNetwork r = some net then 1 else 0 := by
      simp [netCount, List.countP_cons]
    rw [hc]
    cases hr : recNetwork r with
    | none =>
      simp [processRecord, hr]
    | some m =>
      simp only [processRecord, hr]
      by_cases hm : net = m
      · subst hm
        simp [lookupCount_bumpCount]
      · have hne : ¬ (some m = some net) := by
          intro hh; exact hm (Option.some.injEq _ _ ▸ hh).symm
        simp [lookupCount_bumpCount, if_neg hm, hne]

theorem nodup_keys_foldl (records : List SubgraphRecord) (st : AggState)
    (h : (st.counts.map Prod.fst).Nodup) :
    (((records.foldl processRecord st).counts).map Prod.fst).Nodup := by
  induction records generalizing st with
  | nil => exact h
  | cons r rs ih =>
    simp only [List.foldl_cons]
    refine ih _ ?_
    cases hr : recNetwork r with
    | none => simpa [processRecord, hr] using h
    | some m =>
      simp only [processRecord, hr]
      exact nodup_keys_bumpCount _ _ h

theorem addToSet_toFinset (s : List String) (i : String) :
    (addToSet s i).toFinset = insert i s.toFinset := by
  by_cases h : i ∈ s
  · rw [addToSet, if_pos h]
    exact (Finset.insert_eq_self.2 (List.mem_toFinset.2 h)).symm
  · rw [addToSet, if_neg h]
    simp

theorem addToSet_nodup {s : List String} (i : String) (h : s.Nodup) :
    (addToSet s i).Nodup := by
  by_cases hi : i ∈ s
  · rwa [addToSet, if_pos hi]
  · rw [addToSet, if_neg hi]
    exact List.nodup_cons.2 ⟨hi, h⟩

theorem addAllocs_toFinset (allocs : List Allocation) (s : List String) :
    (addAllocs s allocs).toFinset =
      s.toFinset ∪ (allocs.filterMap (·.indexer)).toFinset := by
  induction allocs generalizing s with
  | nil => simp [addAllocs]
  | cons a rest ih =>
    cases ha : a.indexer with
    | none =>
      have hstep : addAllocs s (a :: rest) = addAllocs s rest := by
        simp [addAllocs, ha]
      rw [hstep, ih]
      simp [List.filterMap_cons, ha]
    | some i =>
      have hstep : addAllocs s (a :: rest) = addAllocs (addToSet s i) rest := by
        simp [addAllocs, ha]
      rw [hstep, ih, addToSet_toFinset]
      simp [List.filterMap_cons, ha, Finset.insert_union, Finset.union_insert]

theorem addAllocs_nodup (allocs : List Allocation) {s : List String} (h : s.Nodup) :
    (addAllocs s allocs).Nodup := by
  induction allocs generalizing s with
  | nil => exact h
  | cons a rest ih =>
    cases ha : a.indexer with
    | none =>
      have hstep : addAllocs s (a :: rest) = addAllocs s rest := by
        simp [addAllocs, ha]
      rw [hstep]; exact ih h
    | some i =>
      have hstep : addAllocs s (a :: rest) = addAllocs (addToSet s i) rest := by
        simp [addAllocs, ha]
      rw [hstep]; exact ih (addToSet_nodup i h)

theorem indexers_foldl (records : List SubgraphRecord) (st : AggState) (net : String) :
    (lookupSet ((records.foldl processRecord st).indexers) net).toFinset =
      (lookupSet st.indexers net).toFinset ∪ (netIndexerIds records net).toFinset := by
  induction records generalizing st with
  | nil => simp [netIndexerIds]
  | cons r rs ih =>
    simp only [List.foldl_cons]
    rw [ih]
    cases hr : recNetwork r with
    | none =>
      have hfil : decide (recNetwork r = some net) = false := by simp [hr]
      simp [processRecord, hr, netIndexerIds, List.filter_cons, hfil]
    | some m =>
      simp only [processRecord, hr]
      by_cases hm : net = m
      · subst hm
        have hfil : decide (recNetwork r = some net) = true := by simp [hr]
        rw [lookupSet_updIndexers, if_pos rfl, addAllocs_toFinset]
        simp only [netIndexerIds, List.filter_cons, hfil, if_pos, List.flatMap_cons,
          List.toFinset_append]
        rw [Finset.union_assoc]
      · have hfil : decide (recNetwork r = some net) = false := by
          simp [hr]; exact fun hh => hm hh.symm
        rw [lookupSet_updIndexers, if_neg hm]
        simp [netIndexerIds, List.filter_cons, hfil]

theorem indexers_nodup_foldl (records : List SubgraphRecord) (st : AggState)
    (h : ∀ net, (lookupSet st.indexers net).Nodup) :
    ∀ net, (lookupSet ((records.foldl processRecord st).indexers) net).Nodup := by
  induction records generalizing st with
  | nil => exact h
  | cons r rs ih =>
    simp only [List.foldl_cons]
    refine ih _ ?_
    intro net
    cases hr : recNetwork r with
    | none => simpa [processRecord, hr] using h net
    | some m =>
      simp only [processRecord, hr]
      rw [lookupSet_updIndexers]
      by_cases hm : net = m
      · rw [if_pos hm]
        exact addAllocs_nodup _ (h m)
      · rw [if_neg hm]
        exact h net

/-- C1: for every list of retrieved subgraph records, a record whose manifest
lacks a network identifier is skipped (it leaves the aggregation state
unchanged, not an error); every qualifying record increments its network's
`subgraph_count` by exactly one (the count equals the number of records
attributed to the network); `unique_indexer_count` equals the cardinality of
the set of indexer ids collected from that network's records' allocation
lists (a `Nat`, `0` when none recorded); every observed network yields one
output row; and the concrete scenario
`[{mainnet, A}, {mainnet, A}, {base, B}]` produces
`[{mainnet, 2, 1}, {base, 1, 1}]` with grand total `3`. -/
theorem C1_network_indexer_aggregation :
    (∀ (st : AggState) (r : SubgraphRecord), recNetwork r = none → processRecord st r = st) ∧
    (∀ (records : List SubgraphRecord) (d : NetworkIndexerData),
        d ∈ aggregateRecords records →
          d.subgraph_count = netCount records d.network_name ∧
          d.unique_indexer_count = (netIndexerIds records d.network_name).toFinset.card) ∧
    (∀ (records : List SubgraphRecord) (net : String),
        0 < netCount records net →
          ∃ d ∈ aggregateRecords records, d.network_name = net) ∧
    aggregateRecords scenarioRecords = [⟨"mainnet", 2, 1⟩, ⟨"base", 1, 1⟩] ∧
    grand_total (aggregateRecords scenarioRecords) = 3 := by
  refine ⟨?_, ?_, ?_, by decide, by decide⟩
  · intro st r hr
    simp [processRecord, hr]
  · intro records d hd
    simp only [aggregateRecords, finalizeAgg, List.mem_map] at hd
    obtain ⟨p, hp, rfl⟩ := hd
    have hnd : ((records.foldl processRecord ⟨[], []⟩).counts.map Prod.fst).Nodup :=
      nodup_keys_foldl records _ (by simp)
    have hlook := lookupCount_of_mem hnd hp
    refine ⟨?_, ?_⟩
    · have hc := counts_foldl records ⟨[], []⟩ p.1
      rw [hlook] at hc
      simpa [lookupCount] using hc
    · have hsnd := indexers_nodup_foldl records ⟨[], []⟩ (fun net => by simp [lookupSet]) p.1
      have hfin := indexers_foldl records ⟨[], []⟩ p.1
      have hcard := List.toFinset_card_of_nodup hsnd
      rw [hfin] at hcard
      simp only [lookupSet, List.toFinset_nil, Finset.empty_union] at hcard
      exact hcard.symm
  · intro records net hpos
    have hsome := (counts_isSome_foldl records ⟨[], []⟩ net).2 (Or.inr hpos)
    obtain ⟨v, hv⟩ := Option.isSome_iff_exists.1 hsome
    refine ⟨⟨net, v,
      (lookupSet (records.foldl processRecord ⟨[], []⟩).indexers net).length⟩, ?_, rfl⟩
    simp only [aggregateRecords, finalizeAgg, List.mem_map]
    exact ⟨(net, v), lookupCount_eq_some_mem hv, rfl⟩

/-- Witness for C1: the theorem applied to the scenario input at the
`mainnet` row, with the membership hypothesis discharged by evaluation. -/
theorem C1_network_indexer_aggregation_witness :
    (⟨"mainnet", 2, 1⟩ : NetworkIndexerData) ∈ aggregateRecords scenarioRecords ∧
    ((⟨"mainnet", 2, 1⟩ : NetworkIndexerData).subgraph_count =
        netCount scenarioRecords "mainnet" ∧
      (⟨"mainnet", 2, 1⟩ : NetworkIndexerData).unique_indexer_count =
        (netIndexerIds scenarioRecords "mainnet").toFinset.card) :=
  ⟨by decide, C1_network_indexer_aggregation.2.1 scenarioRecords _ (by decide)⟩

/-! ## Delegation event aggregator (`fetch_delegation_metrics`) -/

/-- One record of the `stakeDelegateds` / `stakeDelegatedLockeds` queries. -/
structure RawEvent where
  tokens : Nat
  delegator : String
  indexer : String
  blockTimestamp : Nat
  transactionHash : String
deriving DecidableEq

/-- The `"type"` field of an event dictionary. -/
inductive EventType where
  | delegation
  | undelegation
deriving DecidableEq

/-- One entry of `events_list`, as built from a raw record: the token amount
is unit-converted by truncating division (`int(d["tokens"]) // 10**18`). -/
structure DelegationEvent where
  type : EventType
  tokens : Nat
  delegator : String
  indexer : String
  timestamp : Nat
  tx_hash : String
deriving DecidableEq

/-- Conversion of a raw record into an `events_list` entry. -/
def toEvent (ty : EventType) (r : RawEvent) : DelegationEvent :=
  ⟨ty, r.tokens / 10 ^ 18, r.delegator, r.indexer, r.blockTimestamp, r.transactionHash⟩

/-- Insert an event into a list already sorted by timestamp descending,
after every element with a strictly larger timestamp (stable placement, as
Python's stable `list.sort` gives). -/
def insertDesc (e : DelegationEvent) : List DelegationEvent → List DelegationEvent
  | [] => [e]
  | x :: xs =>
    if e.timestamp < x.timestamp then x :: insertDesc e xs else e :: x :: xs

/-- `events_list.sort(key=lambda x: x["timestamp"], reverse=True)`: a stable
sort by timestamp descending. -/
def sortDesc : List DelegationEvent → List DelegationEvent
  | [] => []
  | x :: xs => insertDesc x (sortDesc xs)

/-- The per-stream block of `fetch_delegation_metrics`: on a 2xx response
the total is the truncating division of the pre-summed raw token values and
each record is appended to the events list; on a non-2xx status the total is
`0` and nothing is appended. -/
def streamResult (t : Transport (List RawEvent)) (ty : EventType) :
    Nat × List DelegationEvent :=
  match t with
  | .ok rs => ((rs.map (·.tokens)).sum / 10 ^ 18, rs.map (toEvent ty))
  | _ => (0, [])

/-- Result of `fetch_delegation_metrics` (the source returns the tuple
`(total_delegated, total_undelegated, net, events_list)`). -/
structure DelegationMetrics where
  total_delegated : Nat
  total_undelegated : Nat
  net : Int
  events : List DelegationEvent
deriving DecidableEq

/-- `fetch_delegation_metrics`, parameterised by the outcomes of the two
posts. A network-level exception at either post is caught by the enclosing
`try` and yields `(0, 0, 0, [])`, discarding any partial work; otherwise
each stream degrades independently, the merged list is sorted by timestamp
descending, and `net = total_delegated - total_undelegated`. -/
def fetch_delegation_metrics (t1 t2 : Transport (List RawEvent)) : DelegationMetrics :=
  match t1, t2 with
  | .exn, _ => ⟨0, 0, 0, []⟩
  | _, .exn => ⟨0, 0, 0, []⟩
  | t1, t2 =>
    let td := (streamResult t1 .delegation).1
    let evs1 := (streamResult t1 .delegation).2
    let tu := (streamResult t2 .undelegation).1
    let evs2 := (streamResult t2 .undelegation).2
    ⟨td, tu, (td : Int) - (tu : Int), sortDesc (evs1 ++ evs2)⟩

/-! ### Sortedness of the merged event list -/

theorem mem_insertDesc {e x : DelegationEvent} {l : List DelegationEvent} :
    x ∈ insertDesc e l ↔ x = e ∨ x ∈ l := by
  induction l with
  | nil => simp [insertDesc]
  | cons y ys ih =>
    by_cases h : e.timestamp < y.timestamp
    · simp [insertDesc, if_pos h, ih]
      tauto
    · simp [insertDesc, if_neg h]

theorem mem_sortDesc {x : DelegationEvent} {l : List DelegationEvent} :
    x ∈ sortDesc l ↔ x ∈ l := by
  induction l with
  | nil => simp [sortDesc]
  | cons y ys ih => simp [sortDesc, mem_insertDesc, ih]

theorem pairwise_insertDesc {e : DelegationEvent} {l : List DelegationEvent}
    (h : l.Pairwise fun a b => b.timestamp ≤ a.timestamp) :
    (insertDesc e l).Pairwise fun a b => b.timestamp ≤ a.timestamp := by
  induction l with
  | nil => simp [insertDesc]
  | cons y ys ih =>
    rcases List.pairwise_cons.1 h with ⟨hy, hys⟩
    by_cases hcmp : e.timestamp < y.timestamp
    · rw [insertDesc, if_pos hcmp]
      refine List.pairwise_cons.2 ⟨?_, ih hys⟩
      intro z hz
      rcases mem_insertDesc.1 hz with rfl | hz
      · exact Nat.le_of_lt hcmp
      · exact hy z hz
    · rw [insertDesc, if_neg hcmp]
      refine List.pairwise_cons.2 ⟨?_, h⟩
      intro z hz
      rcases List.mem_cons.1 hz with rfl | hz
      · exact Nat.le_of_not_lt hcmp
      · exact le_trans (hy z hz) (Nat.le_of_not_lt hcmp)

theorem pairwise_sortDesc (l : List DelegationEvent) :
    (sortDesc l).Pairwise fun a b => b.timestamp ≤ a.timestamp := by
  induction l with
  | nil => simp [sortDesc]
  | cons y ys ih => exact pairwise_insertDesc ih

/-- Two delegation records of `5 * 10^17` raw tokens each: their raw sum is
`10^18` (one display unit) while each converts to `0` display units. -/
def discrepancyDels : List RawEvent :=
  [⟨5 * 10 ^ 17, "d", "i", 1, "t"⟩, ⟨5 * 10 ^ 17, "d", "i", 2, "t"⟩]

/-- C7: the aggregate totals divide the pre-summed raw token values by
`10^18` (truncating), each per-event display amount is its own raw value
divided by `10^18`, and on `discrepancyDels` the sum of the displayed
per-event amounts (`0`) differs from the reported total (`1`). -/
theorem C7_conversion_order :
    (∀ ds us : List RawEvent,
        (fetch_delegation_metrics (.ok ds) (.ok us)).total_delegated =
            (ds.map (·.tokens)).sum / 10 ^ 18 ∧
          (fetch_delegation_metrics (.ok ds) (.ok us)).total_undelegated =
            (us.map (·.tokens)).sum / 10 ^ 18 ∧
          ∀ e ∈ (fetch_delegation_metrics (.ok ds) (.ok us)).events,
            ∃ r : RawEvent, (r ∈ ds ∨ r ∈ us) ∧ e.tokens = r.tokens / 10 ^ 18) ∧
    (fetch_delegation_metrics (.ok discrepancyDels) (.ok [])).total_delegated = 1 ∧
    ((fetch_delegation_metrics (.ok discrepancyDels) (.ok [])).events.map
      (·.tokens)).sum = 0 ∧
    ((fetch_delegation_metrics (.ok discrepancyDels) (.ok [])).events.map
        (·.tokens)).sum ≠
      (fetch_delegation_metrics (.ok discrepancyDels) (.ok [])).total_delegated := by
  refine ⟨?_, by decide, by decide, by decide⟩
  intro ds us
  refine ⟨rfl, rfl, ?_⟩
  intro e he
  have he' : e ∈ ds.map (toEvent .delegation) ++ us.map (toEvent .undelegation) :=
    mem_sortDesc.1 he
  rcases List.mem_append.1 he' with hm | hm
  · obtain ⟨r, hr, rfl⟩ := List.mem_map.1 hm
    exact ⟨r, Or.inl hr, rfl⟩
  · obtain ⟨r, hr, rfl⟩ := List.mem_map.1 hm
    exact ⟨r, Or.inr hr, rfl⟩

/-- Witness for C7: the per-event conversion clause applied at the
discrepancy input and its first displayed event. -/
theorem C7_conversion_order_witness :
    (⟨.delegation, 0, "d", "i", 2, "t"⟩ : DelegationEvent) ∈
      (fetch_delegation_metrics (.ok discrepancyDels) (.ok [])).events ∧
    ∃ r : RawEvent, (r ∈ discrepancyDels ∨ r ∈ ([] : List RawEvent)) ∧
      (⟨.delegation, 0, "d", "i", 2, "t"⟩ : DelegationEvent).tokens = r.tokens / 10 ^ 18 :=
  ⟨by decide, (C7_conversion_order.1 discrepancyDels []).2.2 _ (by decide)⟩

/-- C8: for every pair of outcomes of the two event queries, the merged
event collection is sorted by timestamp descending; in particular the
scenario with delegations at timestamps 100 and 200 and an undelegation at
150 is exposed in the order 200, 150, 100. -/
theorem C8_merged_event_ordering :
    (∀ t1 t2 : Transport (List RawEvent),
        (fetch_delegation_metrics t1 t2).events.Pairwise
          fun a b => b.timestamp ≤ a.timestamp) ∧
    ((fetch_delegation_metrics
        (.ok [⟨5000 * 10 ^ 18, "dA", "iA", 100, "tA"⟩,
              ⟨3000 * 10 ^ 18, "dB", "iB", 200, "tB"⟩])
        (.ok [⟨1000 * 10 ^ 18, "dC", "iC", 150, "tC"⟩])).events.map (·.timestamp)
      = [200, 150, 100]) := by
  refine ⟨?_, by decide⟩
  intro t1 t2
  cases t1 <;> cases t2 <;>
    first
      | exact pairwise_sortDesc _
      | simp [fetch_delegation_metrics]

/-- C10: the two event streams degrade independently on a non-2xx status.
When only the delegation query fails, its total is `0`, the merged list is
exactly the sorted undelegation events (all of undelegation type), and
`net = -total_undelegated`; symmetrically when only the undelegation query
fails. -/
theorem C10_per_stream_degradation :
    (∀ us : List RawEvent,
        (fetch_delegation_metrics .httpError (.ok us)).total_delegated = 0 ∧
        (fetch_delegation_metrics .httpError (.ok us)).total_undelegated =
          (us.map (·.tokens)).sum / 10 ^ 18 ∧
        (fetch_delegation_metrics .httpError (.ok us)).net =
          -(((us.map (·.tokens)).sum / 10 ^ 18 : Nat) : Int) ∧
        (fetch_delegation_metrics .httpError (.ok us)).events =
          sortDesc (us.map (toEvent .undelegation)) ∧
        ∀ e ∈ (fetch_delegation_metrics .httpError (.ok us)).events,
          e.type = .undelegation) ∧
    (∀ ds : List RawEvent,
        (fetch_delegation_metrics (.ok ds) .httpError).total_undelegated = 0 ∧
        (fetch_delegation_metrics (.ok ds) .httpError).net =
          (((ds.map (·.tokens)).sum / 10 ^ 18 : Nat) : Int) ∧
        (fetch_delegation_metrics (.ok ds) .httpError).events =
          sortDesc (ds.map (toEvent .delegation)) ∧
        ∀ e ∈ (fetch_delegation_metrics (.ok ds) .httpError).events,
          e.type = .delegation) := by
  constructor
  · intro us
    refine ⟨rfl, rfl, by simp [fetch_delegation_metrics, streamResult], rfl, ?_⟩
    intro e he
    have he' : e ∈ us.map (toEvent .undelegation) := mem_sortDesc.1 he
    obtain ⟨r, hr, rfl⟩ := List.mem_map.1 he'
    rfl
  · intro ds
    refine ⟨rfl, by simp [fetch_delegation_metrics, streamResult], ?_, ?_⟩
    · show sortDesc (ds.map (toEvent .delegation) ++ []) = _
      rw [List.append_nil]
    · intro e he
      have he' : e ∈ ds.map (toEvent .delegation) ++ [] := mem_sortDesc.1 he
      rw [List.append_nil] at he'
      obtain ⟨r, hr, rfl⟩ := List.mem_map.1 he'
      rfl

/-- Witness for C10: the failed-delegation branch at one concrete
undelegation of `10^18` raw tokens, giving `net = -1` and an
undelegation-typed event. -/
theorem C10_per_stream_degradation_witness :
    (fetch_delegation_metrics .httpError
        (.ok [⟨10 ^ 18, "dW", "iW", 5, "tW"⟩])).net = -1 ∧
    (⟨.undelegation, 1, "dW", "iW", 5, "tW"⟩ : DelegationEvent) ∈
      (fetch_delegation_metrics .httpError (.ok [⟨10 ^ 18, "dW", "iW", 5, "tW"⟩])).events ∧
    (⟨.undelegation, 1, "dW", "iW", 5, "tW"⟩ : DelegationEvent).type = .undelegation :=
  ⟨by decide, by decide,
    (C10_per_stream_degradation.1 [⟨10 ^ 18, "dW", "iW", 5, "tW"⟩]).2.2.2.2 _ (by decide)⟩

/-! ## Quarterly rollup calculator (`fetch_quarterly_arbitrum_data`) -/

/-- The fixed protocol epoch constant of `timestamp_to_day_number`
(the source comments it as 2020-12-17 00:00:00 UTC). -/
def genesis_timestamp : Int := 1608134400

/-- `int((timestamp - genesis_timestamp) / 86400)`. Python's `int()` on a
float truncates toward zero, so this is truncated division; the float
quotient is exact at every magnitude the script can meet (offsets far below
`2^53`), so the embedding uses exact truncated division on `Int`. -/
def timestamp_to_day_number (timestamp : Int) : Int :=
  (timestamp - genesis_timestamp).tdiv 86400

/-- One `graphNetworkDailyDatas` record, reduced to the three cumulative
counters the quarter delta reads (parsed by `int(...)` from strings). -/
structure DailySnapshot where
  totalIndexingRewards : Int
  totalIndexingIndexerRewards : Int
  totalIndexingDelegatorRewards : Int
deriving DecidableEq

/-- One entry of the `quarters` list: label, period description, start day
number and end day number. -/
structure Quarter where
  label : String
  period : String
  start_day : Int
  end_day : Int
deriving DecidableEq

/-- The configured quarters, newest first. The source computes the boundary
day numbers from `datetime(Y, M, 1).timestamp()`; the embedding supplies
the UTC epoch values of those boundary dates. -/
def quarters : List Quarter :=
  [⟨"Q3-2025", "Jul-Sep 2025",
    timestamp_to_day_number 1751328000, timestamp_to_day_number 1759276800⟩,
   ⟨"Q2-2025", "Apr-Jun 2025",
    timestamp_to_day_number 1743465600, timestamp_to_day_number 1751328000⟩,
   ⟨"Q1-2025", "Jan-Mar 2025",
    timestamp_to_day_number 1735689600, timestamp_to_day_number 1743465600⟩,
   ⟨"Q4-2024", "Oct-Dec 2024",
    timestamp_to_day_number 1727740800, timestamp_to_day_number 1735689600⟩,
   ⟨"Q3-2024", "Jul-Sep 2024",
    timestamp_to_day_number 1719792000, timestamp_to_day_number 1727740800⟩,
   ⟨"Q2-2024", "Apr-Jun 2024",
    timestamp_to_day_number 1711929600, timestamp_to_day_number 1719792000⟩]

/-- One dictionary appended to `quarterly_data`. -/
structure QuarterRow where
  quarter : String
  period : String
  total_rewards : Int
  indexer_rewards : Int
  delegator_rewards : Int
deriving DecidableEq

/-- The per-quarter body: fetch the snapshot at `start_day` and at
`end_day - 1`; if both are present, each delta is the difference of the
corresponding cumulative counters floor-divided by `10^18` (Python `//`);
otherwise the quarter is skipped. `fetchDay` is `get_network_data_for_day`,
which already contains its own failures and returns `None` on any error or
empty result. -/
def processQuarter (fetchDay : Int → Option DailySnapshot) (q : Quarter) :
    Option QuarterRow :=
  match fetchDay q.start_day, fetchDay (q.end_day - 1) with
  | some s, some e =>
    some ⟨q.label, q.period,
      (e.totalIndexingRewards - s.totalIndexingRewards).fdiv (10 ^ 18),
      (e.totalIndexingIndexerRewards - s.totalIndexingIndexerRewards).fdiv (10 ^ 18),
      (e.totalIndexingDelegatorRewards - s.totalIndexingDelegatorRewards).fdiv (10 ^ 18)⟩
  | _, _ => none

/-- The hardcoded fallback table (label, period, total, indexer, delegator). -/
def fallback_data : List (String × String × Int × Int × Int) :=
  [("Q3-2025", "Jul-Sep 2025", 58420000, 25503600, 32916400),
   ("Q2-2025", "Apr-Jun 2025", 56280000, 24562200, 31717800),
   ("Q1-2025", "Jan-Mar 2025", 54120000, 23632400, 30487600),
   ("Q4-2024", "Oct-Dec 2024", 51850000, 22641800, 29208200),
   ("Q3-2024", "Jul-Sep 2024", 49720000, 21710800, 28009200),
   ("Q2-2024", "Apr-Jun 2024", 47680000, 20817200, 26862800)]

/-- The dictionary appended for one fallback entry. -/
def mkFallbackRow (f : String × String × Int × Int × Int) : QuarterRow :=
  ⟨f.1, f.2.1, f.2.2.1, f.2.2.2.1, f.2.2.2.2⟩

/-- The `if len(quarterly_data) < 6:` fallback block: append a fallback row
for every quarter label not already present in the live results. -/
def appendFallback (live : List QuarterRow) : List QuarterRow :=
  if live.length < 6 then
    live ++ (fallback_data.filter fun fb =>
      decide (fb.1 ∉ live.map QuarterRow.quarter)).map mkFallbackRow
  else live

/-- `fetch_quarterly_arbitrum_data`: attempt every configured quarter live
(in newest-first order), then run the fallback block. -/
def fetch_quarterly_arbitrum_data (fetchDay : Int → Option DailySnapshot) :
    List QuarterRow :=
  appendFallback (quarters.filterMap (processQuarter fetchDay))

/-- Chronological rank of a quarter label, `0` being the newest configured
quarter. -/
def labelRank (label : String) : Nat :=
  if label = "Q3-2025" then 0
  else if label = "Q2-2025" then 1
  else if label = "Q1-2025" then 2
  else if label = "Q4-2024" then 3
  else if label = "Q3-2024" then 4
  else if label = "Q2-2024" then 5
  else 6

/-- A rollup list is ordered newest quarter first. -/
def newestFirst (rows : List QuarterRow) : Prop :=
  rows.Pairwise fun a b => labelRank a.quarter < labelRank b.quarter

theorem tdiv_eq_fdiv_of_nonneg {a : Int} (h : 0 ≤ a) (b : Nat) :
    a.tdiv (b : Int) = a.fdiv (b : Int) := by
  obtain ⟨m, rfl⟩ := Int.eq_ofNat_of_zero_le h
  cases m with
  | zero => simp [Int.tdiv, Int.fdiv, Nat.zero_div]
  | succ k => rfl

/-- C3 counterexample: at the timestamp 12 hours before the genesis constant
the code returns day `0` (truncation toward zero), while the floor of the
quotient is `-1`; so the day index does not equal the floor for timestamps
earlier than genesis. -/
theorem C3_day_index_counterexample :
    timestamp_to_day_number 1608091200 = 0 ∧
    (1608091200 - genesis_timestamp).fdiv 86400 = -1 ∧
    timestamp_to_day_number 1608091200 ≠ (1608091200 - genesis_timestamp).fdiv 86400 := by
  refine ⟨by decide, by decide, by decide⟩

/-- C3 as amended: the day index is the quotient of
`timestamp - genesis_timestamp` by `86400` truncated toward zero (Python
`int()` on the float quotient), which coincides with the floor exactly for
every timestamp at or after genesis; for earlier timestamps not a whole
number of days before genesis it exceeds the floor. -/
theorem C3_day_index_amended (ts : Int) :
    timestamp_to_day_number ts = (ts - genesis_timestamp).tdiv 86400 ∧
    (genesis_timestamp ≤ ts →
      timestamp_to_day_number ts = (ts - genesis_timestamp).fdiv 86400) := by
  refine ⟨rfl, fun h => ?_⟩
  have h0 : (0 : Int) ≤ ts - genesis_timestamp := by omega
  exact tdiv_eq_fdiv_of_nonneg h0 86400

/-- Witness for C3 (amended): at the Q3-2025 boundary timestamp, which is
after genesis, the day index agrees with the floor quotient. -/
theorem C3_day_index_amended_witness :
    genesis_timestamp ≤ 1751328000 ∧
    timestamp_to_day_number 1751328000 = (1751328000 - genesis_timestamp).fdiv 86400 :=
  ⟨by decide, (C3_day_index_amended 1751328000).2 (by decide)⟩

/-! ### Lemmas about the quarterly rollup -/

theorem processQuarter_label {f : Int → Option DailySnapshot} {q : Quarter}
    {r : QuarterRow} (h : processQuarter f q = some r) : r.quarter = q.label := by
  unfold processQuarter at h
  cases hs : f q.start_day with
  | none => rw [hs] at h; simp at h
  | some s =>
    cases he : f (q.end_day - 1) with
    | none => rw [hs, he] at h; simp at h
    | some e =>
      rw [hs, he] at h
      simp only [Option.some.injEq] at h
      rw [← h]

theorem filter_filterMap_label_nil (l : List Quarter) (f : Int → Option DailySnapshot)
    (x : String) (h : ∀ q ∈ l, q.label ≠ x) :
    ((l.filterMap (processQuarter f)).filter fun r => decide (r.quarter = x)) = [] := by
  induction l with
  | nil => rfl
  | cons q rest ih =>
    rw [List.filterMap_cons]
    cases hq : processQuarter f q with
    | none => exact ih fun q' hq' => h q' (List.mem_cons_of_mem _ hq')
    | some r =>
      rw [List.filter_cons]
      have hfalse : decide (r.quarter = x) = false := by
        simp only [decide_eq_false_iff_not]
        rw [processQuarter_label hq]
        exact h q (List.mem_cons_self _ _)
      rw [hfalse]
      simp only [Bool.false_eq_true, if_false]
      exact ih fun q' hq' => h q' (List.mem_cons_of_mem _ hq')

theorem filter_filterMap_label (l : List Quarter) (f : Int → Option DailySnapshot)
    (q : Quarter) (hnd : (l.map Quarter.label).Nodup) (hq : q ∈ l) :
    ((l.filterMap (processQuarter f)).filter fun r => decide (r.quarter = q.label)) =
      (processQuarter f q).toList := by
  induction l with
  | nil => simp at hq
  | cons q0 rest ih =>
    simp only [List.map_cons, List.nodup_cons] at hnd
    rcases List.mem_cons.1 hq with rfl | hmem
    · rw [List.filterMap_cons]
      have hrest : ∀ q' ∈ rest, q'.label ≠ q.label := by
        intro q' hq' he
        exact hnd.1 (he ▸ List.mem_map_of_mem Quarter.label hq')
      cases hq0 : processQuarter f q with
      | none =>
        simp only [Option.toList]
        exact filter_filterMap_label_nil rest f q.label hrest
      | some r =>
        rw [List.filter_cons]
        have htrue : decide (r.quarter = q.label) = true := by
          simp [processQuarter_label hq0]
        rw [htrue]
        simp only [if_true, Option.toList]
        rw [filter_filterMap_label_nil rest f q.label hrest]
    · have hne : q0.label ≠ q.label := by
        intro he
        exact hnd.1 (he ▸ List.mem_map_of_mem Quarter.label hmem)
      rw [List.filterMap_cons]
      cases hq0 : processQuarter f q0 with
      | none => exact ih hnd.2 hmem
      | some r =>
        rw [List.filter_cons]
        have hfalse : decide (r.quarter = q.label) = false := by
          simp only [decide_eq_false_iff_not]
          rw [processQuarter_label hq0]
          exact hne
        rw [hfalse]
        simp only [Bool.false_eq_true, if_false]
        exact ih hnd.2 hmem

theorem length_filterMap_lt {α β : Type} (g : α → Option β) (l : List α) (a : α)
    (ha : a ∈ l) (hga : g a = none) : (l.filterMap g).length < l.length := by
  induction l with
  | nil => simp at ha
  | cons x rest ih =>
    rw [List.filterMap_cons]
    rcases List.mem_cons.1 ha with rfl | hmem
    · rw [hga]
      simp only [List.length_cons]
      exact Nat.lt_succ_of_le (List.length_filterMap_le g rest)
    · cases hx : g x with
      | none =>
        simp only [List.length_cons]
        exact Nat.lt_succ_of_lt (ih hmem)
      | some b =>
        simp only [List.length_cons]
        exact Nat.succ_lt_succ (ih hmem)

theorem pairwise_filterMap_of {α β : Type} {S : α → α → Prop} {R : β → β → Prop}
    (g : α → Option β) {l : List α} (h : l.Pairwise S)
    (hpres : ∀ a b x y, S a b → g a = some x → g b = some y → R x y) :
    (l.filterMap g).Pairwise R := by
  induction h with
  | nil => simp
  | @cons a rest hhead htail ih =>
    rw [List.filterMap_cons]
    cases hg : g a with
    | none => exact ih
    | some x =>
      refine List.pairwise_cons.2 ⟨?_, ih⟩
      intro y hy
      obtain ⟨b, hb, hgb⟩ := List.mem_filterMap.1 hy
      exact hpres a b x y (hhead b hb) hg hgb

/-- A `get_network_data_for_day` oracle that answers only for the two
boundary days of Q2-2025 (its start day and the day before Q3-2025's start),
so Q2-2025 computes live while every other quarter falls back. -/
def onlyQ2 : Int → Option DailySnapshot := fun d =>
  if d = timestamp_to_day_number 1743465600 then some ⟨0, 0, 0⟩
  else if d = timestamp_to_day_number 1751328000 - 1 then some ⟨0, 0, 0⟩
  else none

/-- C4 counterexample: when only Q2-2025 computes live, the fallback rows
for the other quarters are appended after it, so Q2-2025 precedes Q3-2025
and the final rollup is not ordered newest quarter first. -/
theorem C4_rollup_ordering_counterexample :
    (fetch_quarterly_arbitrum_data onlyQ2).map QuarterRow.quarter =
      ["Q2-2025", "Q3-2025", "Q1-2025", "Q4-2024", "Q3-2024", "Q2-2024"] ∧
    ¬ newestFirst (fetch_quarterly_arbitrum_data onlyQ2) := by
  constructor
  · decide
  · unfold newestFirst
    decide

/-- C4 as amended: the quarters computed live appear first, in newest-first
order among themselves, followed by the fallback-filled quarters, also
newest-first among themselves; the whole rollup is newest-first when all six
quarters compute live or when none does, but not in every mixed run. -/
theorem C4_rollup_ordering_amended (f : Int → Option DailySnapshot) :
    newestFirst (quarters.filterMap (processQuarter f)) ∧
    fetch_quarterly_arbitrum_data f =
      quarters.filterMap (processQuarter f) ++
        (if (quarters.filterMap (processQuarter f)).length < 6 then
          (fallback_data.filter fun fb =>
            decide (fb.1 ∉
              (quarters.filterMap (processQuarter f)).map QuarterRow.quarter)).map
            mkFallbackRow
        else []) ∧
    newestFirst ((fallback_data.filter fun fb =>
      decide (fb.1 ∉
        (quarters.filterMap (processQuarter f)).map QuarterRow.quarter)).map
      mkFallbackRow) ∧
    ((quarters.filterMap (processQuarter f)).length = 6 →
      newestFirst (fetch_quarterly_arbitrum_data f)) ∧
    (quarters.filterMap (processQuarter f) = [] →
      newestFirst (fetch_quarterly_arbitrum_data f)) := by
  have hq : quarters.Pairwise fun a b => labelRank a.label < labelRank b.label := by
    decide
  have h1 : newestFirst (quarters.filterMap (processQuarter f)) := by
    refine pairwise_filterMap_of _ hq ?_
    intro a b x y hS hx hy
    rw [processQuarter_label hx, processQuarter_label hy]
    exact hS
  have h2 : fetch_quarterly_arbitrum_data f =
      quarters.filterMap (processQuarter f) ++
        (if (quarters.filterMap (processQuarter f)).length < 6 then
          (fallback_data.filter fun fb =>
            decide (fb.1 ∉
              (quarters.filterMap (processQuarter f)).map QuarterRow.quarter)).map
            mkFallbackRow
        else []) := by
    unfold fetch_quarterly_arbitrum_data appendFallback
    split_ifs with h
    · rfl
    · rw [List.append_nil]
  have hfb : fallback_data.Pairwise fun a b => labelRank a.1 < labelRank b.1 := by
    decide
  have h3 : newestFirst ((fallback_data.filter fun fb =>
      decide (fb.1 ∉
        (quarters.filterMap (processQuarter f)).map QuarterRow.quarter)).map
      mkFallbackRow) :=
    List.Pairwise.map mkFallbackRow (fun a b h => h) (hfb.filter _)
  refine ⟨h1, h2, h3, ?_, ?_⟩
  · intro hlen
    rw [h2, hlen]
    have : ¬ (6 : Nat) < 6 := by omega
    rw [if_neg this, List.append_nil]
    exact h1
  · intro hnil
    have h3' := h3
    rw [hnil] at h3'
    rw [h2, hnil]
    simpa using h3'

/-- Witness for C4 (amended): with an oracle answering every day, all six
quarters compute live and the rollup is newest-first. -/
theorem C4_rollup_ordering_amended_witness :
    (quarters.filterMap (processQuarter fun _ => some ⟨0, 0, 0⟩)).length = 6 ∧
    newestFirst (fetch_quarterly_arbitrum_data fun _ => some ⟨0, 0, 0⟩) :=
  ⟨by decide, (C4_rollup_ordering_amended fun _ => some ⟨0, 0, 0⟩).2.2.2.1 (by decide)⟩

theorem label_mem_live {f : Int → Option DailySnapshot} {q : Quarter}
    (hq : q ∈ quarters) :
    q.label ∈ (quarters.filterMap (processQuarter f)).map QuarterRow.quarter ↔
      (processQuarter f q).isSome := by
  constructor
  · intro h
    obtain ⟨r, hr, hlab⟩ := List.mem_map.1 h
    obtain ⟨q', hq', hgq'⟩ := List.mem_filterMap.1 hr
    have hql : q'.label = q.label := (processQuarter_label hgq') ▸ hlab
    have hnd : (quarters.map Quarter.label).Nodup := by decide
    have : q' = q := List.inj_on_of_nodup_map hnd hq' hq hql
    rw [← this]
    rw [hgq']
    rfl
  · intro h
    obtain ⟨r, hr⟩ := Option.isSome_iff_exists.1 h
    have : r ∈ quarters.filterMap (processQuarter f) :=
      List.mem_filterMap.2 ⟨q, hq, hr⟩
    have hlab := processQuarter_label hr
    exact hlab ▸ List.mem_map_of_mem QuarterRow.quarter this

/-- C5: for every quarter whose two boundary snapshots are both present, the
row's delta for each field is the difference of the boundary counters
floor-divided by `10^18`; each delta is nonnegative when the corresponding
counters are monotone, and a negative difference of non-monotonic source
data yields a negative delta (not clamped: a difference of `-(10^18)` gives
`-1`). -/
theorem C5_quarterly_delta (fetchDay : Int → Option DailySnapshot) (q : Quarter)
    (s e : DailySnapshot) (hs : fetchDay q.start_day = some s)
    (he : fetchDay (q.end_day - 1) = some e) :
    processQuarter fetchDay q =
      some ⟨q.label, q.period,
        (e.totalIndexingRewards - s.totalIndexingRewards).fdiv (10 ^ 18),
        (e.totalIndexingIndexerRewards - s.totalIndexingIndexerRewards).fdiv (10 ^ 18),
        (e.totalIndexingDelegatorRewards - s.totalIndexingDelegatorRewards).fdiv (10 ^ 18)⟩ ∧
    (s.totalIndexingRewards ≤ e.totalIndexingRewards →
      0 ≤ (e.totalIndexingRewards - s.totalIndexingRewards).fdiv (10 ^ 18)) ∧
    (s.totalIndexingIndexerRewards ≤ e.totalIndexingIndexerRewards →
      0 ≤ (e.totalIndexingIndexerRewards - s.totalIndexingIndexerRewards).fdiv (10 ^ 18)) ∧
    (s.totalIndexingDelegatorRewards ≤ e.totalIndexingDelegatorRewards →
      0 ≤ (e.totalIndexingDelegatorRewards - s.totalIndexingDelegatorRewards).fdiv (10 ^ 18)) ∧
    (e.totalIndexingRewards - s.totalIndexingRewards = -(10 ^ 18) →
      (e.totalIndexingRewards - s.totalIndexingRewards).fdiv (10 ^ 18) = -1) := by
  refine ⟨?_,
    fun h => Int.fdiv_nonneg (by omega) (by positivity),
    fun h => Int.fdiv_nonneg (by omega) (by positivity),
    fun h => Int.fdiv_nonneg (by omega) (by positivity),
    fun h => ?_⟩
  · unfold processQuarter
    rw [hs, he]
  · rw [h]
    have hneg : (-(10 ^ 18) : Int) = (-1) * 10 ^ 18 := by ring
    rw [hneg, Int.mul_fdiv_cancel _ (by positivity)]

/-- Oracle for the C5 witness: snapshots at days 0 and 1 only. -/
def wFetch : Int → Option DailySnapshot := fun d =>
  if d = 0 then some ⟨100 * 10 ^ 18, 40 * 10 ^ 18, 60 * 10 ^ 18⟩
  else if d = 1 then some ⟨150 * 10 ^ 18, 60 * 10 ^ 18, 90 * 10 ^ 18⟩
  else none

/-- Synthetic quarter for the C5 witness: starts at day 0, ends at day 2. -/
def wQuarter : Quarter := ⟨"Q", "P", 0, 2⟩

/-- Witness for C5: boundary snapshots with totals 100 and 150 (in units of
`10^18`) give a quarter row with a total delta of 50. -/
theorem C5_quarterly_delta_witness :
    wFetch wQuarter.start_day = some ⟨100 * 10 ^ 18, 40 * 10 ^ 18, 60 * 10 ^ 18⟩ ∧
    wFetch (wQuarter.end_day - 1) = some ⟨150 * 10 ^ 18, 60 * 10 ^ 18, 90 * 10 ^ 18⟩ ∧
    processQuarter wFetch wQuarter = some ⟨"Q", "P", 50, 20, 30⟩ := by
  refine ⟨by decide, by decide, ?_⟩
  rw [(C5_quarterly_delta wFetch wQuarter
    ⟨100 * 10 ^ 18, 40 * 10 ^ 18, 60 * 10 ^ 18⟩
    ⟨150 * 10 ^ 18, 60 * 10 ^ 18, 90 * 10 ^ 18⟩ (by decide) (by decide)).1]
  decide

theorem filter_map_fallbackRow (fbl : List (String × String × Int × Int × Int))
    (x : String) :
    ((fbl.map mkFallbackRow).filter fun r => decide (r.quarter = x)) =
      (fbl.filter fun fb => decide (fb.1 = x)).map mkFallbackRow := by
  induction fbl with
  | nil => rfl
  | cons fb rest ih =>
    rw [List.map_cons, List.filter_cons, List.filter_cons]
    by_cases hlab : fb.1 = x
    · have h1 : decide ((mkFallbackRow fb).quarter = x) = true := by
        simp [mkFallbackRow, hlab]
      have h2 : decide (fb.1 = x) = true := by simp [hlab]
      rw [h1, h2]
      simp only [if_true, List.map_cons]
      rw [ih]
    · have h1 : decide ((mkFallbackRow fb).quarter = x) = false := by
        simp [mkFallbackRow, hlab]
      have h2 : decide (fb.1 = x) = false := by simp [hlab]
      rw [h1, h2]
      simp only [Bool.false_eq_true, if_false]
      exact ih

/-- C6: for every oracle and every configured quarter, the final rollup's
rows with that quarter's label are exactly the live row when the quarter
computed live (so the fallback entry for that label does not appear), and
exactly the fallback row otherwise. -/
theorem C6_fallback_precedence (f : Int → Option DailySnapshot) (q : Quarter)
    (hq : q ∈ quarters) :
    ((fetch_quarterly_arbitrum_data f).filter fun r => decide (r.quarter = q.label)) =
      (match processQuarter f q with
        | some row => [row]
        | none =>
          (fallback_data.filter fun fb => decide (fb.1 = q.label)).map mkFallbackRow) := by
  have hnd : (quarters.map Quarter.label).Nodup := by decide
  have hlive := filter_filterMap_label quarters f q hnd hq
  unfold fetch_quarterly_arbitrum_data appendFallback
  by_cases h6 : (quarters.filterMap (processQuarter f)).length < 6
  · rw [if_pos h6, List.filter_append, hlive, filter_map_fallbackRow]
    cases hpq : processQuarter f q with
    | some row =>
      have hmem : q.label ∈ (quarters.filterMap (processQuarter f)).map QuarterRow.quarter :=
        (label_mem_live hq).2 (by rw [hpq]; rfl)
      have hempty : ((fallback_data.filter fun fb =>
          decide (fb.1 ∉
            (quarters.filterMap (processQuarter f)).map QuarterRow.quarter)).filter
          fun fb => decide (fb.1 = q.label)) = [] := by
        rw [List.filter_eq_nil_iff]
        intro fb hfb hcontra
        simp only [decide_eq_true_eq] at hcontra
        have hnot := (List.mem_filter.1 hfb).2
        simp only [decide_eq_true_eq] at hnot
        exact hnot (by rw [hcontra]; exact hmem)
      rw [hempty]
      simp
    | none =>
      have hnotmem : q.label ∉
          (quarters.filterMap (processQuarter f)).map QuarterRow.quarter := by
        intro hmem
        have hs := (label_mem_live hq).1 hmem
        rw [hpq] at hs
        simp at hs
      have hcongr : ((fallback_data.filter fun fb =>
          decide (fb.1 ∉
            (quarters.filterMap (processQuarter f)).map QuarterRow.quarter)).filter
          fun fb => decide (fb.1 = q.label)) =
          fallback_data.filter fun fb => decide (fb.1 = q.label) := by
        rw [List.filter_filter]
        refine List.filter_congr ?_
        intro fb hfb
        by_cases hlab : fb.1 = q.label
        · have hnm : fb.1 ∉
              (quarters.filterMap (processQuarter f)).map QuarterRow.quarter := by
            rw [hlab]; exact hnotmem
          have hd1 : decide (fb.1 = q.label) = true := by simp [hlab]
          have hd2 : decide (fb.1 ∉
              (quarters.filterMap (processQuarter f)).map QuarterRow.quarter) = true := by
            simp only [decide_eq_true_eq]
            exact hnm
          rw [hd1, hd2]
          rfl
        · have hd1 : decide (fb.1 = q.label) = false := by simp [hlab]
          rw [hd1]
          simp
      rw [hcongr]
      simp
  · rw [if_neg h6]
    have hsome : (processQuarter f q).isSome := by
      by_contra hns
      rw [Option.not_isSome_iff_eq_none] at hns
      have hlt := length_filterMap_lt (processQuarter f) quarters q hq hns
      have h6' : quarters.length = 6 := by decide
      omega
    obtain ⟨row, hpq⟩ := Option.isSome_iff_exists.1 hsome
    rw [hpq] at hlive
    rw [hpq, hlive]
    rfl

/-- Witness for C6: with an all-days oracle every quarter computes live;
for Q3-2025 the final rollup carries the live row (deltas 0), not the
fallback entry, even though the fallback table contains one. -/
theorem C6_fallback_precedence_witness :
    ((fetch_quarterly_arbitrum_data fun _ => some ⟨0, 0, 0⟩).filter
        fun r => decide (r.quarter = "Q3-2025")) =
      [⟨"Q3-2025", "Jul-Sep 2025", 0, 0, 0⟩] :=
  (C6_fallback_precedence (fun _ => some ⟨0, 0, 0⟩)
    ⟨"Q3-2025", "Jul-Sep 2025",
      timestamp_to_day_number 1751328000, timestamp_to_day_number 1759276800⟩
    (by decide)).trans (by decide)

/-! ## Pagination loops (`count_active_delegators` and the subgraph fetch) -/

/-- `batch_size = 1000` in `count_active_delegators`. -/
def batch_size : Nat := 1000

/-- `page_size = 1000` in `fetch_network_subgraph_counts`. -/
def page_size : Nat := 1000

/-- The `while True:` loop of `count_active_delegators`, with explicit fuel.
A 2xx response adds the page length to the count and stops at the first page
shorter than `batch_size`; a non-2xx status, and likewise a network-level
exception caught by the surrounding `try`, breaks the loop and returns the
accumulated count. -/
def countLoop (remote : Nat → Transport (List String)) :
    Nat → Nat → Nat → Nat
  | 0, _, count => count
  | fuel + 1, skip, count =>
    match remote skip with
    | .ok pg =>
      if pg.length < batch_size then count + pg.length
      else countLoop remote fuel (skip + batch_size) (count + pg.length)
    | _ => count

/-- `count_active_delegators`: run the counting loop from `skip = 0` with
count `0`. -/
def count_active_delegators (remote : Nat → Transport (List String))
    (fuel : Nat) : Nat :=
  countLoop remote fuel 0 0

/-- An honest finite backend for the counter: the page at `skip` is the
slice `data[skip : skip + batch_size]`. -/
def countSlice (data : List String) : Nat → Transport (List String) :=
  fun skip => .ok ((data.drop skip).take batch_size)

/-- The `while True:` pagination loop of `fetch_network_subgraph_counts`,
with explicit fuel. The `requests.post` of this loop is not wrapped in a
`try`, so a network-level exception propagates out (`Except.error`); a
non-2xx status or an empty page breaks the loop; otherwise the page's
records are folded into the aggregation state and the offset advances. -/
def subgraphLoop (remote : Nat → Transport (List SubgraphRecord)) :
    Nat → Nat → AggState → Except Unit AggState
  | 0, _, st => .ok st
  | fuel + 1, skip, st =>
    match remote skip with
    | .exn => .error ()
    | .httpError => .ok st
    | .ok [] => .ok st
    | .ok batch =>
      subgraphLoop remote fuel (skip + page_size) (batch.foldl processRecord st)

/-- `fetch_network_subgraph_counts`: run the pagination loop from offset 0
with empty dictionaries, then build one row per counted network. -/
def fetch_network_subgraph_counts (remote : Nat → Transport (List SubgraphRecord))
    (fuel : Nat) : Except Unit (List NetworkIndexerData) :=
  (subgraphLoop remote fuel 0 ⟨[], []⟩).map finalizeAgg

/-- An honest finite backend for the subgraph fetch. -/
def sliceRemote (data : List SubgraphRecord) : Nat → Transport (List SubgraphRecord) :=
  fun skip => .ok ((data.drop skip).take page_size)

theorem countLoop_slice (data : List String) :
    ∀ (fuel skip count : Nat), data.length - skip ≤ fuel * batch_size →
      countLoop (countSlice data) fuel skip count = count + (data.length - skip) := by
  intro fuel
  induction fuel with
  | zero =>
    intro skip count h
    simp only [Nat.zero_mul, Nat.le_zero] at h
    simp [countLoop, h]
  | succ n ih =>
    intro skip count h
    simp only [countLoop, countSlice, List.length_take, List.length_drop]
    by_cases hlt : data.length - skip < batch_size
    · rw [if_pos (by omega)]
      omega
    · rw [if_neg (by omega)]
      rw [ih (skip + batch_size) _ (by simp only [batch_size] at *; omega)]
      simp only [batch_size] at *
      omega

theorem subgraphLoop_slice (data : List SubgraphRecord) :
    ∀ (fuel skip : Nat) (st : AggState), data.length - skip ≤ fuel * page_size →
      subgraphLoop (sliceRemote data) fuel skip st =
        .ok ((data.drop skip).foldl processRecord st) := by
  intro fuel
  induction fuel with
  | zero =>
    intro skip st h
    simp only [Nat.zero_mul, Nat.le_zero] at h
    have hdrop : data.drop skip = [] := List.drop_eq_nil_of_le (by omega)
    rw [hdrop]
    simp [subgraphLoop]
  | succ n ih =>
    intro skip st h
    cases hdrop : data.drop skip with
    | nil =>
      simp only [subgraphLoop, sliceRemote, hdrop, List.take_nil]
      rfl
    | cons x xs =>
      have hpage : (data.drop skip).take page_size = x :: xs.take (page_size - 1) := by
        rw [hdrop]
        show List.take page_size (x :: xs) = _
        rw [show page_size = (page_size - 1) + 1 from rfl]
        rfl
      have hstep : subgraphLoop (sliceRemote data) (n + 1) skip st =
          subgraphLoop (sliceRemote data) n (skip + page_size)
            (((data.drop skip).take page_size).foldl processRecord st) := by
        simp only [subgraphLoop, sliceRemote, hpage]
      rw [hstep]
      rw [ih (skip + page_size) _ (by simp only [page_size] at *; omega)]
      rw [hdrop]
      have hdd : List.drop page_size (x :: xs) = List.drop (skip + page_size) data := by
        rw [← hdrop, List.drop_drop]
      conv_rhs =>
        rw [← List.take_append_drop page_size (x :: xs), List.foldl_append, hdd]

/-- C9: pagination terminates and follows the partial-result policy. Against
an honest finite backend the counter loop returns exactly the backing data's
size once the fuel covers the page count (so the result is the same for
every larger fuel, the loop never runs forever, and the count never exceeds
remote availability), and it returns `0` for zero results; the counter stops
at the first page shorter than `batch_size`; on a non-2xx status both loops
halt and return what they accumulated; the subgraph loop stops on an empty
page and, against the honest backend, aggregates exactly the backing data. -/
theorem C9_pagination_termination :
    (∀ (data : List String) (fuel : Nat), data.length ≤ fuel * batch_size →
        count_active_delegators (countSlice data) fuel = data.length) ∧
    (∀ fuel : Nat, count_active_delegators (countSlice []) fuel = 0) ∧
    (∀ (remote : Nat → Transport (List String)) (fuel skip count : Nat)
        (pg : List String), remote skip = .ok pg → pg.length < batch_size →
        countLoop remote (fuel + 1) skip count = count + pg.length) ∧
    (∀ (remote : Nat → Transport (List String)) (fuel skip count : Nat),
        remote skip = .httpError → countLoop remote (fuel + 1) skip count = count) ∧
    (∀ (remote : Nat → Transport (List SubgraphRecord)) (fuel skip : Nat)
        (st : AggState), remote skip = .ok [] →
        subgraphLoop remote (fuel + 1) skip st = .ok st) ∧
    (∀ (remote : Nat → Transport (List SubgraphRecord)) (fuel skip : Nat)
        (st : AggState), remote skip = .httpError →
        subgraphLoop remote (fuel + 1) skip st = .ok st) ∧
    (∀ (data : List SubgraphRecord) (fuel : Nat), data.length ≤ fuel * page_size →
        fetch_network_subgraph_counts (sliceRemote data) fuel =
          .ok (aggregateRecords data)) := by
  refine ⟨?_, ?_, ?_, ?_, ?_, ?_, ?_⟩
  · intro data fuel h
    rw [count_active_delegators, countLoop_slice data fuel 0 0 (by omega)]
    omega
  · intro fuel
    rw [count_active_delegators, countLoop_slice [] fuel 0 0 (by simp)]
    rfl
  · intro remote fuel skip count pg hok hlt
    simp only [countLoop, hok]
    rw [if_pos hlt]
  · intro remote fuel skip count herr
    simp only [countLoop, herr]
  · intro remote fuel skip st hok
    simp only [subgraphLoop, hok]
  · intro remote fuel skip st herr
    simp only [subgraphLoop, herr]
  · intro data fuel h
    rw [fetch_network_subgraph_counts, subgraphLoop_slice data fuel 0 _ (by omega)]
    rfl

/-- Witness for C9: a three-record backing set is counted exactly with one
page of fuel, the empty set counts to zero, and a non-2xx first page returns
the (zero) accumulated count. -/
theorem C9_pagination_termination_witness :
    (["a", "b", "c"] : List String).length ≤ 1 * batch_size ∧
    count_active_delegators (countSlice ["a", "b", "c"]) 1 = 3 ∧
    count_active_delegators (countSlice []) 1 = 0 ∧
    countLoop (fun _ => .httpError) 1 0 0 = 0 :=
  ⟨by decide,
   (C9_pagination_termination.1 ["a", "b", "c"] 1 (by decide)).trans (by decide),
   C9_pagination_termination.2.1 1,
   C9_pagination_termination.2.2.2.1 (fun _ => .httpError) 0 0 0 rfl⟩

/-! ## Reward snapshot aggregator and the top-level run -/

/-- Payload of the `graphNetwork` rewards query. -/
structure RewardsData where
  totalIndexingRewards : Nat
  totalIndexingIndexerRewards : Nat
  totalIndexingDelegatorRewards : Nat
deriving DecidableEq

/-- `fetch_rewards_metrics`: on a 2xx response carrying a data object the
three counters are converted by truncating division by `10^18`; an empty
data object, a non-2xx status, and a caught network exception each yield
`(0, 0, 0)`. -/
def fetch_rewards_metrics (t : Transport (Option RewardsData)) : Nat × Nat × Nat :=
  match t with
  | .ok (some d) =>
    (d.totalIndexingRewards / 10 ^ 18,
     d.totalIndexingIndexerRewards / 10 ^ 18,
     d.totalIndexingDelegatorRewards / 10 ^ 18)
  | _ => (0, 0, 0)

/-- Possible outcomes of one `main()` run. -/
inductive RunResult where
  | abortedMissingKey
  | crashed
  | abortedNoData
  | completed (quarterly : List QuarterRow) (rewards : Nat × Nat × Nat)
      (delegation : DelegationMetrics) (networks : List NetworkIndexerData)
deriving DecidableEq

/-- `main`, parameterised by the credential and the remote behaviours each
fetch observes. A missing credential aborts before any fetch; the quarterly,
rewards, and delegation aggregators always return; an uncaught exception
escaping `fetch_network_subgraph_counts` crashes the run; an empty network
list aborts it; otherwise the dashboard is generated from the collected
results. (The comparison-statistics step feeds only the renderer and is
fully failure-contained; it is omitted from the run outcome.) -/
def mainRun (apiKey : Option String) (fetchDay : Int → Option DailySnapshot)
    (rewardsT : Transport (Option RewardsData)) (d1 d2 : Transport (List RawEvent))
    (subRemote : Nat → Transport (List SubgraphRecord)) (fuel : Nat) : RunResult :=
  match apiKey with
  | none => .abortedMissingKey
  | some _ =>
    let qd := fetch_quarterly_arbitrum_data fetchDay
    let rwm := fetch_rewards_metrics rewardsT
    let dm := fetch_delegation_metrics d1 d2
    match fetch_network_subgraph_counts subRemote fuel with
    | .error _ => .crashed
    | .ok [] => .abortedNoData
    | .ok nd => .completed qd rwm dm nd

/-- A subgraph backend whose first page succeeds with the scenario records
and whose second request fails with a non-2xx status. -/
def twoPageRemote : Nat → Transport (List SubgraphRecord) :=
  fun skip => if skip = 0 then .ok scenarioRecords else .httpError

/-- C2 counterexample: a network-level exception at the first subgraphs page
propagates out of `fetch_network_subgraph_counts` (its `requests.post` has
no surrounding `try`), and the run then crashes rather than completing or
aborting on the credential check; moreover a non-2xx first page makes the
subgraph list empty, and the run aborts because of that remote failure even
though the credential is present and every sibling aggregator succeeded. -/
theorem C2_failure_containment_counterexample :
    fetch_network_subgraph_counts (fun _ => .exn) 1 = .error () ∧
    mainRun (some "k") (fun _ => some ⟨0, 0, 0⟩) (.ok (some ⟨0, 0, 0⟩)) (.ok []) (.ok [])
      (fun _ => .exn) 1 = .crashed ∧
    mainRun (some "k") (fun _ => some ⟨0, 0, 0⟩) (.ok (some ⟨0, 0, 0⟩)) (.ok []) (.ok [])
      (fun _ => .httpError) 1 = .abortedNoData := by
  refine ⟨rfl, by decide, by decide⟩

/-- C2 as amended: every aggregator contains non-2xx transport failures —
rewards returns `(0, 0, 0)`, the delegation aggregator returns zeros and no
events on a caught exception, and the subgraph loop halts on a non-2xx page
with the partially accumulated counts; the subgraph fetch never errors when
the remote raises no exception (but propagates a network-level exception);
the run aborts before any fetch exactly on the missing credential, and a run
whose sibling aggregators all fail still completes with partial data as long
as the subgraph fetch returns a nonempty list. -/
theorem C2_failure_containment_amended :
    (∀ t : Transport (Option RewardsData),
        t = .httpError ∨ t = .exn ∨ t = .ok none →
          fetch_rewards_metrics t = (0, 0, 0)) ∧
    (∀ t2 : Transport (List RawEvent),
        fetch_delegation_metrics .exn t2 = ⟨0, 0, 0, []⟩) ∧
    (∀ t1 : Transport (List RawEvent),
        fetch_delegation_metrics t1 .exn = ⟨0, 0, 0, []⟩) ∧
    (∀ (remote : Nat → Transport (List SubgraphRecord)) (fuel skip : Nat)
        (st : AggState), remote skip = .httpError →
        subgraphLoop remote (fuel + 1) skip st = .ok st) ∧
    (∀ (remote : Nat → Transport (List SubgraphRecord)) (fuel : Nat),
        (∀ s, remote s ≠ .exn) →
        ∀ (skip : Nat) (st : AggState),
          ∃ r, subgraphLoop remote fuel skip st = .ok r) ∧
    (∀ (fetchDay : Int → Option DailySnapshot)
        (rewardsT : Transport (Option RewardsData))
        (d1 d2 : Transport (List RawEvent))
        (subRemote : Nat → Transport (List SubgraphRecord)) (fuel : Nat),
        mainRun none fetchDay rewardsT d1 d2 subRemote fuel = .abortedMissingKey) ∧
    fetch_network_subgraph_counts twoPageRemote 3 =
      .ok [⟨"mainnet", 2, 1⟩, ⟨"base", 1, 1⟩] ∧
    mainRun (some "k") (fun _ => none) .httpError .httpError .httpError
        twoPageRemote 3 =
      .completed (fetch_quarterly_arbitrum_data fun _ => none) (0, 0, 0)
        ⟨0, 0, 0, []⟩ [⟨"mainnet", 2, 1⟩, ⟨"base", 1, 1⟩] := by
  refine ⟨?_, ?_, ?_, ?_, ?_, ?_, rfl, by decide⟩
  · intro t ht
    rcases ht with rfl | rfl | rfl <;> rfl
  · intro t2
    cases t2 <;> rfl
  · intro t1
    cases t1 <;> rfl
  · intro remote fuel skip st herr
    simp only [subgraphLoop, herr]
  · intro remote fuel hne
    induction fuel with
    | zero => exact fun skip st => ⟨st, rfl⟩
    | succ n ih =>
      intro skip st
      cases hr : remote skip with
      | ok batch =>
        cases batch with
        | nil => exact ⟨st, by simp only [subgraphLoop, hr]⟩
        | cons x xs =>
          obtain ⟨r, hrr⟩ := ih (skip + page_size) ((x :: xs).foldl processRecord st)
          refine ⟨r, ?_⟩
          simp only [subgraphLoop, hr]
          exact hrr
      | httpError => exact ⟨st, by simp only [subgraphLoop, hr]⟩
      | exn => exact absurd hr (hne skip)
  · intro fetchDay rewardsT d1 d2 subRemote fuel
    rfl

/-- Witness for C2 (amended): the rewards clause applied to a non-2xx
response. -/
theorem C2_failure_containment_amended_witness :
    ((.httpError : Transport (Option RewardsData)) = .httpError ∨
      (.httpError : Transport (Option RewardsData)) = .exn ∨
      (.httpError : Transport (Option RewardsData)) = .ok none) ∧
    fetch_rewards_metrics .httpError = (0, 0, 0) :=
  ⟨Or.inl rfl, C2_failure_containment_amended.1 .httpError (Or.inl rfl)⟩
